import Mathlib

/-!
Verification of the live-gfx-data-server key-value store (src/index.ts).

The server keeps an in-memory `Map<string, any>` (`store`), mirrors every
accepted `set` to disk as `{key}.json` under a cache directory, and fans
value changes out to WebSocket subscribers via the runtime's per-topic
publish/subscribe.  This file is a shallow embedding of that code:

* strings are `List Char` (so that the first-occurrence semantics of the
  JavaScript `String.replace` used during startup loading can be reasoned
  about directly);
* JSON values are the inductive `Json`; JSON serialize-then-parse is
  modelled as the identity on `Json` trees, so the persisted file system is
  a list of `(fileName, parsedContent)` pairs;
* the WebSocket `message` handler and the HTTP `fetch` handlers become
  pure functions from a `SystemState` and an inbound unit to a new state
  plus an ordered trace of effect events.
-/

set_option autoImplicit false

namespace LiveGfx

/-- Connection identity (one WebSocket client). -/
abbrev Conn := Nat

/-- A key, as the character list of a JavaScript string. -/
abbrev Key := List Char

/-- A JSON value: the payloads stored by the server (`any` in the source,
arriving through `JSON.parse`).  Numbers are modelled as integers; no claim
depends on numeric representation. -/
inductive Json where
  | null : Json
  | bool (b : Bool) : Json
  | num (n : Int) : Json
  | str (s : List Char) : Json
  | arr (elems : List Json) : Json
  | obj (fields : List (Key × Json)) : Json

instance : Inhabited Json := ⟨Json.null⟩

/-- An outbound JSON message, `{key, value}` or `{error: msg}`. -/
inductive OutMsg where
  | kv (k : Key) (v : Json) : OutMsg
  | err (msg : List Char) : OutMsg


/-- An HTTP response produced by the `fetch` handler. -/
inductive HttpResponse where
  | ok (m : OutMsg) : HttpResponse
  | clientError (msg : List Char) : HttpResponse


/-- One observable effect of a handler, in the order the source performs
them: an in-memory store write, a disk write attempt for a key (`ok` is
the outcome of `Bun.write`; on failure the exception is caught inside
`persistKey` and logged), a publish delivery to one subscriber, a direct
`ws.send` to one connection, or the HTTP response. -/
inductive Event where
  | storeWrite (k : Key) (v : Json) : Event
  | diskWrite (k : Key) (ok : Bool) : Event
  | deliver (c : Conn) (m : OutMsg) : Event
  | send (c : Conn) (m : OutMsg) : Event
  | httpRespond (r : HttpResponse) : Event


/-- An inbound WebSocket message after `JSON.parse` and the
`data.action` dispatch chain of the source's `message` handler:
the four recognized actions, a parsed message whose action matches no
branch (the chain has no final `else`), and a payload on which
`JSON.parse` throws (caught by the handler's `catch`). -/
inductive InMsg where
  | subscribeMsg (k : Key) : InMsg
  | unsubscribeMsg (k : Key) : InMsg
  | setMsg (k : Key) (v : Json) : InMsg
  | getMsg (k : Key) : InMsg
  | otherAction : InMsg
  | parseError : InMsg


/-- The in-memory object store: `Map<string, any>` as an association list
in insertion order. -/
abbrev Store := List (Key × Json)

/-- The subscription registry: which connection is subscribed to which
topic (key).  This is the state behind the runtime's `ws.subscribe` /
`ws.unsubscribe` / `server.publish`. -/
abbrev Registry := List (Conn × Key)

/-- Model of `Map.prototype.get`. -/
def mapGet : Store → Key → Option Json
  | [], _ => none
  | (k', v') :: rest, k => if k' = k then some v' else mapGet rest k

/-- Model of `Map.prototype.set`: replace in place if the key is present, else
append. -/
def mapSet : Store → Key → Json → Store
  | [], k, v => [(k, v)]
  | (k', v') :: rest, k, v =>
      if k' = k then (k, v) :: rest else (k', v') :: mapSet rest k v

/-- The `value ?? null` coalescing used by both `get` paths: absent keys
read as `null`. -/
def getOrNull (m : Store) (k : Key) : Json := (mapGet m k).getD Json.null

/-- Model of `ws.subscribe(key)`: topic subscription is idempotent. -/
def regSubscribe (r : Registry) (c : Conn) (k : Key) : Registry :=
  if (c, k) ∈ r then r else (c, k) :: r

/-- Model of `ws.unsubscribe(key)`: drop this connection's subscription to `k`. -/
def regUnsubscribe (r : Registry) (c : Conn) (k : Key) : Registry :=
  r.filter (fun p => p != (c, k))

/-- Modelled from the spec: `dropConnection(connection)` "removes the
connection from every key's subscriber set; invoked exactly once when a
connection terminates".  In the source this cleanup is performed by the
runtime when a socket closes (the repository's `close` handler only
logs); no repository code under src/ implements it, so it is taken from
the spec's contract. -/
def dropConnection (r : Registry) (c : Conn) : Registry :=
  r.filter (fun p => p.1 != c)

/-- The subscribers of topic `k`, in registry order. -/
def subscribers (k : Key) : Registry → List Conn
  | [] => []
  | (c, k') :: rest => if k' = k then c :: subscribers k rest else subscribers k rest

/-- Model of `server.publish(key, payload)`: one independent
delivery of the `{key, value}` notification to each subscriber of the
topic, including the setter if subscribed. -/
def publishEvents (k : Key) (v : Json) : List Conn → List Event
  | [] => []
  | c :: cs => Event.deliver c (OutMsg.kv k v) :: publishEvents k v cs

/-- The `.json` file extension appended by `persistKey` and stripped by
`initializeStore`. -/
def jsonExt : List Char := ['.', 'j', 's', 'o', 'n']

/-- The persisted files: `(fileName, content)` pairs, with the content
kept as the parsed `Json` tree (stringify/parse modelled as identity). -/
abbrev FileSys := List (Key × Json)

/-- The whole server state threaded through the handlers. -/
structure SystemState where
  store : Store
  registry : Registry
  fs : FileSys


/-- Model of `persistKey(key, value)`: write `JSON.stringify(value)` to
`{key}.json`.  `diskOk` is the outcome of `Bun.write`; on failure the
function catches the error, logs it, and returns normally, leaving the
file system unchanged. -/
def persistKey (st : SystemState) (k : Key) (v : Json) (diskOk : Bool) : SystemState :=
  if diskOk then { st with fs := mapSet st.fs (k ++ jsonExt) v } else st

/-- The error payload sent from the `catch` block of the `message`
handler. -/
def invalidMsg : List Char := "Invalid message format".toList

/-- The error payload of the HTTP `POST /set` handler when the body's
`key` is falsy. -/
def missingKeyMsg : List Char := "Missing key".toList

/-- The WebSocket `message` handler (src/index.ts lines 117-168), as a
function from state and inbound message to new state plus the ordered
trace of its effects.  `diskOk` is the outcome of the disk write that a
`set` performs; it is unused by the other actions. -/
def message (st : SystemState) (c : Conn) (m : InMsg) (diskOk : Bool) :
    SystemState × List Event :=
  match m with
  | InMsg.parseError => (st, [Event.send c (OutMsg.err invalidMsg)])
  | InMsg.subscribeMsg k =>
      let st' := { st with registry := regSubscribe st.registry c k }
      match mapGet st.store k with
      | some v => (st', [Event.send c (OutMsg.kv k v)])
      | none => (st', [])
  | InMsg.unsubscribeMsg k =>
      ({ st with registry := regUnsubscribe st.registry c k }, [])
  | InMsg.setMsg k v =>
      let st1 := { st with store := mapSet st.store k v }
      let st2 := persistKey st1 k v diskOk
      (st2, Event.storeWrite k v :: Event.diskWrite k diskOk ::
              publishEvents k v (subscribers k st2.registry))
  | InMsg.getMsg k =>
      (st, [Event.send c (OutMsg.kv k (getOrNull st.store k))])
  | InMsg.otherAction => (st, [])

/-- The HTTP `GET /get/{key}` handler: respond `{key, value ?? null}`;
no mutation, no subscription side effect. -/
def fetchGet (st : SystemState) (k : Key) : HttpResponse :=
  HttpResponse.ok (OutMsg.kv k (getOrNull st.store k))

/-- The HTTP `POST /set` handler.  The body's fields are `keyField` and
`valueField` (`none` models an absent field; a non-string `key` field is
outside the model).  The source's `if (!key)` guard is true exactly for
an absent or empty-string key.  A body without `value` destructures
`value` to `undefined`, which is not a spec Value; it is modelled as
`null` (no claim exercises that corner).  On the success path the handler
updates the store, awaits the disk write, publishes to subscribers, and
only then responds with the stored pair. -/
def fetchSet (st : SystemState) (keyField : Option Key) (valueField : Option Json)
    (diskOk : Bool) : SystemState × List Event × HttpResponse :=
  match keyField with
  | none => (st, [Event.httpRespond (HttpResponse.clientError missingKeyMsg)],
             HttpResponse.clientError missingKeyMsg)
  | some k =>
      if k = [] then
        (st, [Event.httpRespond (HttpResponse.clientError missingKeyMsg)],
         HttpResponse.clientError missingKeyMsg)
      else
        let v := valueField.getD Json.null
        let st1 := { st with store := mapSet st.store k v }
        let st2 := persistKey st1 k v diskOk
        (st2, Event.storeWrite k v :: Event.diskWrite k diskOk ::
                (publishEvents k v (subscribers k st2.registry) ++
                 [Event.httpRespond (HttpResponse.ok (OutMsg.kv k v))]),
         HttpResponse.ok (OutMsg.kv k v))

/-- JavaScript `file.replace(pat, rep)` with a string pattern: replace
the first occurrence only. -/
def replaceFirst (pat rep : List Char) : List Char → List Char
  | [] => if pat.isEmpty then rep else []
  | c :: rest =>
      if pat.isPrefixOf (c :: rest) then rep ++ (c :: rest).drop pat.length
      else c :: replaceFirst pat rep rest

/-- Whether `pat` occurs as a contiguous substring. -/
def occursIn (pat : List Char) : List Char → Bool
  | [] => pat.isEmpty
  | c :: rest => pat.isPrefixOf (c :: rest) || occursIn pat rest

/-- Whether `pat` is a suffix (the `*.json` glob used at startup matches
exactly the file names ending in `.json`). -/
def hasSuffix (pat : List Char) : List Char → Bool
  | [] => pat.isEmpty
  | c :: rest => pat == c :: rest || hasSuffix pat rest

/-- Model of `initializeStore()`: enumerate the persisted `*.json` records and
absorb them into a fresh store, deriving each key from its file name by
`file.replace(".json", "")` (first occurrence). -/
def initializeStore (fs : FileSys) : Store :=
  (fs.filter (fun p => hasSuffix jsonExt p.1)).foldl
    (fun st p => mapSet st (replaceFirst jsonExt [] p.1) p.2) []

/-- The deliveries (publish fan-out) addressed to connection `c`, in
order. -/
def deliverHit (c : Conn) (e : Event) : Option OutMsg :=
  match e with
  | Event.deliver c' m => if c' = c then some m else none
  | _ => none

/-- All notifications connection `c` receives from a trace. -/
def deliveredTo (c : Conn) (evs : List Event) : List OutMsg :=
  evs.filterMap (deliverHit c)

/-- A concrete key used by witnesses: `"score"`. -/
def kDemo : Key := ['s', 'c', 'o', 'r', 'e']

/-- A second concrete key used by witnesses: `"other"`. -/
def kDemo2 : Key := ['o', 't', 'h', 'e', 'r']

/-- A concrete value used by witnesses. -/
def vDemo : Json := Json.num 5

/-- A second concrete value used by witnesses. -/
def vDemo2 : Json := Json.num 7

/-- The empty server state (fresh start, nothing persisted). -/
def st0 : SystemState := { store := [], registry := [], fs := [] }

/-- A concrete registry: connection 1 subscribed to `kDemo`, connection 2
subscribed to `kDemo2`. -/
def regW : Registry := [(1, kDemo), (2, kDemo2)]

/-- A concrete state with two live subscriptions. -/
def stW : SystemState := { store := [], registry := regW, fs := [] }

/-! ### Store lemmas -/

theorem mapGet_mapSet_self (m : Store) (k : Key) (v : Json) :
    mapGet (mapSet m k v) k = some v := by
  induction m with
  | nil => simp [mapSet, mapGet]
  | cons p rest ih =>
      obtain ⟨k', v'⟩ := p
      by_cases h : k' = k <;> simp [mapSet, mapGet, h, ih]

theorem persistKey_store (st : SystemState) (k : Key) (v : Json) (d : Bool) :
    (persistKey st k v d).store = st.store := by
  cases d <;> simp [persistKey]

theorem persistKey_registry (st : SystemState) (k : Key) (v : Json) (d : Bool) :
    (persistKey st k v d).registry = st.registry := by
  cases d <;> simp [persistKey]

/-! ### Delivery-trace lemmas -/

@[simp]
theorem deliveredTo_nil (c : Conn) : deliveredTo c [] = [] := rfl

@[simp]
theorem deliveredTo_storeWrite (c : Conn) (k : Key) (v : Json) (evs : List Event) :
    deliveredTo c (Event.storeWrite k v :: evs) = deliveredTo c evs := by
  simp [deliveredTo, List.filterMap_cons, deliverHit]

@[simp]
theorem deliveredTo_diskWrite (c : Conn) (k : Key) (b : Bool) (evs : List Event) :
    deliveredTo c (Event.diskWrite k b :: evs) = deliveredTo c evs := by
  simp [deliveredTo, List.filterMap_cons, deliverHit]

@[simp]
theorem deliveredTo_send (c c₂ : Conn) (m : OutMsg) (evs : List Event) :
    deliveredTo c (Event.send c₂ m :: evs) = deliveredTo c evs := by
  simp [deliveredTo, List.filterMap_cons, deliverHit]

@[simp]
theorem deliveredTo_httpRespond (c : Conn) (r : HttpResponse) (evs : List Event) :
    deliveredTo c (Event.httpRespond r :: evs) = deliveredTo c evs := by
  simp [deliveredTo, List.filterMap_cons, deliverHit]

@[simp]
theorem deliveredTo_deliver (c c₂ : Conn) (m : OutMsg) (evs : List Event) :
    deliveredTo c (Event.deliver c₂ m :: evs) =
      if c₂ = c then m :: deliveredTo c evs else deliveredTo c evs := by
  by_cases h : c₂ = c <;> simp [deliveredTo, List.filterMap_cons, deliverHit, h]

@[simp]
theorem deliveredTo_append (c : Conn) (a b : List Event) :
    deliveredTo c (a ++ b) = deliveredTo c a ++ deliveredTo c b := by
  simp [deliveredTo]

/-- Fan-out correctness at the registry level: with a duplicate-free
registry, a publish delivers the one notification to `c` exactly when
`(c, k)` is registered. -/
theorem deliveredTo_publish (r : Registry) (hnd : r.Nodup) (c : Conn) (k : Key)
    (v : Json) :
    deliveredTo c (publishEvents k v (subscribers k r)) =
      if (c, k) ∈ r then [OutMsg.kv k v] else [] := by
  induction r with
  | nil => simp [subscribers, publishEvents]
  | cons p rest ih =>
      obtain ⟨c₁, k₁⟩ := p
      rw [List.nodup_cons] at hnd
      by_cases hk : k₁ = k
      · subst hk
        by_cases hc : c₁ = c
        · subst hc
          simp [subscribers, publishEvents, ih hnd.2, hnd.1]
        · simp [subscribers, publishEvents, ih hnd.2, hc, Prod.ext_iff, Ne.symm hc]
      · simp [subscribers, ih hnd.2, hk, Prod.ext_iff, Ne.symm hk]

theorem subscribers_dropConnection (r : Registry) (c : Conn) (k : Key) :
    c ∉ subscribers k (dropConnection r c) := by
  induction r with
  | nil => simp [dropConnection, subscribers]
  | cons p rest ih =>
      obtain ⟨c₁, k₁⟩ := p
      by_cases hc : c₁ = c
      · simpa [dropConnection, List.filter_cons, hc] using ih
      · by_cases hk : k₁ = k <;>
          simpa [dropConnection, List.filter_cons, bne_iff_ne, hc, hk,
                 subscribers, Ne.symm hc] using ih

theorem deliveredTo_publishEvents_of_not_mem (c : Conn) (k : Key) (v : Json)
    (cs : List Conn) (h : c ∉ cs) :
    deliveredTo c (publishEvents k v cs) = [] := by
  induction cs with
  | nil => simp [publishEvents]
  | cons c₁ cs ih =>
      rw [List.mem_cons] at h
      push_neg at h
      simp [publishEvents, Ne.symm h.1, ih h.2]

/-! ### String lemmas for the startup load path

`persistKey` names the file `k ++ ".json"`; `initializeStore` recovers
the key as `file.replace(".json", "")`, which removes the FIRST
occurrence of `".json"`.  The lemmas below show that for a key in which
`".json"` does not occur the round trip is the identity, and that the
file name `k ++ ".json"` is then the only `*.json` file whose recovered
key is `k`.  The crucial structural fact is that `".json"` has no
nontrivial border (no proper nonempty suffix of it is also a prefix). -/

theorem length_jsonExt : jsonExt.length = 5 := rfl

theorem border_free :
    ∀ i, i < 5 → 0 < i → List.drop i jsonExt ≠ List.take (5 - i) jsonExt := by
  decide

theorem take_len_append {α : Type} (u w : List α) :
    List.take u.length (u ++ w) = u := by
  induction u with
  | nil => simp
  | cons a u ih => simp [ih]

theorem drop_len_append {α : Type} (u w : List α) :
    List.drop u.length (u ++ w) = w := by
  induction u with
  | nil => simp
  | cons a u ih => simp [ih]

theorem take_append_split {α : Type} (u w : List α) (n : Nat) :
    List.take n (u ++ w) = List.take n u ++ List.take (n - u.length) w := by
  induction u generalizing n with
  | nil => simp
  | cons a u ih =>
      cases n with
      | zero => simp
      | succ n => simp [ih, Nat.succ_sub_succ]

theorem drop_append_split {α : Type} (u w : List α) (n : Nat) :
    List.drop n (u ++ w) = List.drop n u ++ List.drop (n - u.length) w := by
  induction u generalizing n with
  | nil => simp
  | cons a u ih =>
      cases n with
      | zero => simp
      | succ n => simp [ih, Nat.succ_sub_succ]

theorem take_full {α : Type} (l : List α) (n : Nat) (h : l.length ≤ n) :
    List.take n l = l := by
  induction l generalizing n with
  | nil => simp
  | cons a l ih =>
      cases n with
      | zero => simp at h
      | succ n => simpa using ih n (by simpa using h)

theorem isPrefixOf_iff_take (p s : List Char) :
    p.isPrefixOf s = true ↔ List.take p.length s = p := by
  induction p generalizing s with
  | nil => simp [List.isPrefixOf]
  | cons a p ih =>
      cases s with
      | nil => simp [List.isPrefixOf]
      | cons b s =>
          simp only [List.isPrefixOf, Bool.and_eq_true, beq_iff_eq, List.length_cons,
            List.take_succ_cons, List.cons.injEq, ih]
          constructor
          · rintro ⟨rfl, h⟩; exact ⟨rfl, h⟩
          · rintro ⟨rfl, h⟩; exact ⟨rfl, h⟩

theorem occursIn_append_ext (w : List Char) :
    occursIn jsonExt (w ++ jsonExt) = true := by
  induction w with
  | nil => decide
  | cons c w ih => simp [occursIn, ih]

theorem hasSuffix_iff (pat s : List Char) :
    hasSuffix pat s = true ↔ ∃ u, s = u ++ pat := by
  induction s with
  | nil =>
      constructor
      · intro h
        have hp : pat = [] := by simpa [hasSuffix] using h
        exact ⟨[], by simp [hp]⟩
      · rintro ⟨u, hu⟩
        have hp : pat = [] := (List.append_eq_nil.mp hu.symm).2
        simp [hasSuffix, hp]
  | cons c s ih =>
      rw [hasSuffix]
      constructor
      · intro h
        simp only [Bool.or_eq_true] at h
        rcases h with h1 | h2
        · exact ⟨[], by simpa using (beq_iff_eq.mp h1).symm⟩
        · obtain ⟨u, hu⟩ := ih.mp h2
          exact ⟨c :: u, by simp [hu]⟩
      · rintro ⟨u, hu⟩
        cases u with
        | nil =>
            have : pat = c :: s := by simpa using hu.symm
            simp [this]
        | cons a u =>
            have hs : s = u ++ pat := by
              rw [List.cons_append] at hu
              exact (List.cons.injEq c s a (u ++ pat)).mp hu |>.2
            simp [ih.mpr ⟨u, hs⟩]

theorem not_isPrefixOf_append_ext (s : List Char) (hs : s ≠ [])
    (h : jsonExt.isPrefixOf s = false) :
    jsonExt.isPrefixOf (s ++ jsonExt) = false := by
  by_contra hcontra
  rw [Bool.not_eq_false, isPrefixOf_iff_take, length_jsonExt] at hcontra
  by_cases hlen : 5 ≤ s.length
  · have h5 : 5 - s.length = 0 := Nat.sub_eq_zero_of_le hlen
    rw [take_append_split, h5] at hcontra
    simp only [List.take_zero, List.append_nil] at hcontra
    have hpre : jsonExt.isPrefixOf s = true := by
      rw [isPrefixOf_iff_take, length_jsonExt]; exact hcontra
    rw [h] at hpre
    cases hpre
  · push_neg at hlen
    have htake : List.take 5 s = s := take_full s 5 (Nat.le_of_lt hlen)
    rw [take_append_split, htake] at hcontra
    have hdrop : List.drop s.length jsonExt = List.take (5 - s.length) jsonExt := by
      conv_lhs => rw [← hcontra]
      rw [drop_len_append]
    exact border_free s.length hlen (List.length_pos.mpr hs) hdrop

theorem replaceFirst_append_ext (k : Key) (h : occursIn jsonExt k = false) :
    replaceFirst jsonExt [] (k ++ jsonExt) = k := by
  induction k with
  | nil => decide
  | cons c k ih =>
      rw [occursIn, Bool.or_eq_false_iff] at h
      have hpre : jsonExt.isPrefixOf (c :: (k ++ jsonExt)) = false := by
        have hx := not_isPrefixOf_append_ext (c :: k) (by simp) h.1
        rwa [List.cons_append] at hx
      simp only [List.cons_append, replaceFirst, List.append_eq, hpre, Bool.false_eq_true,
        if_false]
      rw [ih h.2]

theorem ext_no_overlap (r : List Char) (hr : r ≠ [])
    (h : hasSuffix jsonExt (jsonExt ++ r) = true) :
    occursIn jsonExt r = true := by
  obtain ⟨u, hu⟩ := (hasSuffix_iff _ _).mp h
  have hlen : u.length = r.length := by
    have hl := congrArg List.length hu
    simp only [List.length_append, length_jsonExt] at hl
    omega
  by_cases h5 : 5 ≤ r.length
  · have h1 : List.drop 5 (jsonExt ++ r) = r := by
      have := drop_len_append jsonExt r
      rwa [length_jsonExt] at this
    have h2 : List.drop 5 (u ++ jsonExt) = List.drop 5 u ++ jsonExt := by
      rw [drop_append_split]
      have h0 : 5 - u.length = 0 := by omega
      rw [h0, List.drop_zero]
    have hre : r = List.drop 5 u ++ jsonExt := by rw [← h1, hu, h2]
    rw [hre]
    exact occursIn_append_ext _
  · push_neg at h5
    have hrpos : 0 < r.length := List.length_pos.mpr hr
    have h1 : List.drop u.length (jsonExt ++ r) = List.drop u.length jsonExt ++ r := by
      rw [drop_append_split, length_jsonExt]
      have h0 : u.length - 5 = 0 := by omega
      rw [h0, List.drop_zero]
    have h2 : List.drop u.length (u ++ jsonExt) = jsonExt := drop_len_append u jsonExt
    have h3 : List.drop u.length jsonExt ++ r = jsonExt := by rw [← h1, hu, h2]
    have h4 : List.take (List.drop u.length jsonExt).length
        (List.drop u.length jsonExt ++ r) = List.drop u.length jsonExt :=
      take_len_append _ _
    rw [h3] at h4
    have h5' : (List.drop u.length jsonExt).length = 5 - u.length := by
      simp [List.length_drop, length_jsonExt]
    rw [h5'] at h4
    exact absurd h4.symm (border_free u.length (by omega) (by omega))

theorem eq_strip_append_ext :
    ∀ f : List Char, hasSuffix jsonExt f = true →
      occursIn jsonExt (replaceFirst jsonExt [] f) = false →
      f = replaceFirst jsonExt [] f ++ jsonExt := by
  intro f
  induction f with
  | nil => intro h _; simp [hasSuffix, jsonExt] at h
  | cons c f ih =>
      intro hsuf hocc
      by_cases hp : jsonExt.isPrefixOf (c :: f) = true
      · have hsplit : c :: f = jsonExt ++ List.drop 5 (c :: f) := by
          have htk := (isPrefixOf_iff_take jsonExt (c :: f)).mp hp
          rw [length_jsonExt] at htk
          conv_lhs => rw [← List.take_append_drop 5 (c :: f)]
          rw [htk]
        have hrf : replaceFirst jsonExt [] (c :: f) = List.drop 5 (c :: f) := by
          simp [replaceFirst, hp, length_jsonExt]
        rw [hrf] at hocc ⊢
        rcases eq_or_ne (List.drop 5 (c :: f)) [] with hrnil | hrne
        · rw [hrnil, List.nil_append]
          rw [hsplit, hrnil, List.append_nil]
        · exfalso
          have hover : occursIn jsonExt (List.drop 5 (c :: f)) = true := by
            apply ext_no_overlap _ hrne
            rw [← hsplit]
            exact hsuf
          rw [hover] at hocc
          cases hocc
      · have hp' : jsonExt.isPrefixOf (c :: f) = false := Bool.eq_false_iff.mpr hp
        have hrf : replaceFirst jsonExt [] (c :: f) = c :: replaceFirst jsonExt [] f := by
          simp [replaceFirst, hp']
        rw [hrf] at hocc ⊢
        rw [occursIn, Bool.or_eq_false_iff] at hocc
        have hsuf' : hasSuffix jsonExt f = true := by
          rw [hasSuffix] at hsuf
          simp only [Bool.or_eq_true] at hsuf
          rcases hsuf with h1 | h2
          · exfalso
            have heq : jsonExt = c :: f := beq_iff_eq.mp h1
            rw [← heq] at hp
            exact hp (by decide)
          · exact h2
        have := ih hsuf' hocc.2
        rw [List.cons_append, ← this]

theorem mapGet_mapSet_ne (m : Store) (k₁ k : Key) (v : Json) (h : k₁ ≠ k) :
    mapGet (mapSet m k₁ v) k = mapGet m k := by
  induction m with
  | nil => simp [mapSet, mapGet, h]
  | cons p rest ih =>
      obtain ⟨k', v'⟩ := p
      by_cases h' : k' = k₁
      · subst h'
        simp [mapSet, mapGet, h]
      · by_cases h'' : k' = k <;> simp [mapSet, mapGet, h', h'', ih, Ne.symm h]

theorem mem_mapSet_self (m : Store) (k : Key) (v : Json) : (k, v) ∈ mapSet m k v := by
  induction m with
  | nil => simp [mapSet]
  | cons p rest ih =>
      obtain ⟨k', v'⟩ := p
      by_cases h' : k' = k <;> simp [mapSet, h', ih]

theorem keys_mapSet_sub (m : Store) (k : Key) (v : Json) (a : Key)
    (h : a ∈ (mapSet m k v).map Prod.fst) : a = k ∨ a ∈ m.map Prod.fst := by
  induction m with
  | nil => simpa [mapSet] using h
  | cons p rest ih =>
      obtain ⟨k', v'⟩ := p
      by_cases h' : k' = k
      · subst h'
        simpa [mapSet] using h
      · rw [mapSet, if_neg h'] at h
        rw [List.map_cons, List.mem_cons] at h
        rcases h with rfl | h
        · right; simp
        · rcases ih h with rfl | h2
          · left; rfl
          · right; simp [h2]

theorem keysNodup_mapSet (m : Store) (k : Key) (v : Json)
    (h : (m.map Prod.fst).Nodup) : ((mapSet m k v).map Prod.fst).Nodup := by
  induction m with
  | nil => simp [mapSet]
  | cons p rest ih =>
      obtain ⟨k', v'⟩ := p
      rw [List.map_cons, List.nodup_cons] at h
      by_cases h' : k' = k
      · subst h'
        rw [mapSet, if_pos rfl, List.map_cons, List.nodup_cons]
        exact ⟨h.1, h.2⟩
      · rw [mapSet, if_neg h', List.map_cons, List.nodup_cons]
        refine ⟨?_, ih h.2⟩
        intro hmem
        rcases keys_mapSet_sub rest k v k' hmem with rfl | hmem'
        · exact h' rfl
        · exact h.1 hmem'

theorem value_unique_of_keysNodup (l : Store) (hnd : (l.map Prod.fst).Nodup)
    (a : Key) (b b' : Json) (h1 : (a, b) ∈ l) (h2 : (a, b') ∈ l) : b = b' := by
  induction l with
  | nil => cases h1
  | cons p rest ih =>
      rw [List.map_cons, List.nodup_cons] at hnd
      rcases List.mem_cons.mp h1 with he1 | h1'
      · rcases List.mem_cons.mp h2 with he2 | h2'
        · rw [← he1] at he2
          exact ((Prod.mk.injEq a b a b').mp he2.symm).2
        · exfalso
          apply hnd.1
          rw [← he1]
          exact List.mem_map.mpr ⟨(a, b'), h2', rfl⟩
      · rcases List.mem_cons.mp h2 with he2 | h2'
        · exfalso
          apply hnd.1
          rw [← he2]
          exact List.mem_map.mpr ⟨(a, b), h1', rfl⟩
        · exact ih hnd.2 h1' h2'

/-- Helper for the startup load: folding `mapSet` over the persisted
records yields `v` at `k` provided every record whose recovered key is
`k` carries `v`, and either the accumulator already maps `k` to `v` or
some such record exists. -/
theorem mapGet_load_foldl (k : Key) (v : Json) :
    ∀ (files : List (Key × Json)) (acc : Store),
      (∀ p ∈ files, replaceFirst jsonExt [] p.1 = k → p.2 = v) →
      (mapGet acc k = some v ∨ ∃ p ∈ files, replaceFirst jsonExt [] p.1 = k) →
      mapGet (files.foldl
        (fun st p => mapSet st (replaceFirst jsonExt [] p.1) p.2) acc) k = some v := by
  intro files
  induction files with
  | nil =>
      intro acc _ hbase
      rcases hbase with h | ⟨p, hp, _⟩
      · simpa using h
      · cases hp
  | cons q files ih =>
      intro acc hall hbase
      rw [List.foldl_cons]
      by_cases hq : replaceFirst jsonExt [] q.1 = k
      · refine ih _ (fun p hp hpk => hall p (List.mem_cons_of_mem q hp) hpk) (Or.inl ?_)
        rw [hq, hall q (List.mem_cons_self q files) hq]
        exact mapGet_mapSet_self acc k v
      · refine ih _ (fun p hp hpk => hall p (List.mem_cons_of_mem q hp) hpk) ?_
        rcases hbase with h | ⟨p, hp, hpk⟩
        · left
          rw [mapGet_mapSet_ne acc _ k q.2 hq]
          exact h
        · rcases List.mem_cons.mp hp with he | hp'
          · exact absurd (he ▸ hpk) hq
          · exact Or.inr ⟨p, hp', hpk⟩

theorem message_set_fs (st : SystemState) (c : Conn) (k : Key) (v : Json) :
    (message st c (InMsg.setMsg k v) true).1.fs = mapSet st.fs (k ++ jsonExt) v := by
  simp [message, persistKey]

/-! ### Claim theorems -/

/-- C1: when a `set(k, v)` is accepted (WebSocket `set` action or HTTP
`POST /set`), every connection currently subscribed to `k` receives
exactly one notification `{k, v}`, and every connection not subscribed
to `k` receives no notification from that set.  The registry is
duplicate-free, which `ws.subscribe`'s idempotence maintains. -/
theorem c1_set_notifies_exactly_subscribers (st : SystemState) (c c' : Conn) (k : Key)
    (v : Json) (d : Bool) (hnd : st.registry.Nodup) (hk : k ≠ []) :
    ((c', k) ∈ st.registry →
       deliveredTo c' (message st c (InMsg.setMsg k v) d).2 = [OutMsg.kv k v] ∧
       deliveredTo c' (fetchSet st (some k) (some v) d).2.1 = [OutMsg.kv k v]) ∧
    ((c', k) ∉ st.registry →
       deliveredTo c' (message st c (InMsg.setMsg k v) d).2 = [] ∧
       deliveredTo c' (fetchSet st (some k) (some v) d).2.1 = []) := by
  have hpub := deliveredTo_publish st.registry hnd c' k v
  constructor
  · intro hmem
    rw [if_pos hmem] at hpub
    cases d <;> constructor <;> simp [message, fetchSet, persistKey, hk, hpub]
  · intro hmem
    rw [if_neg hmem] at hpub
    cases d <;> constructor <;> simp [message, fetchSet, persistKey, hk, hpub]

/-- Witness for C1: in `stW`, connection 1 is subscribed to `kDemo` and
receives the single notification of a set; connection 2 is not
subscribed to `kDemo` and receives nothing. -/
theorem c1_witness :
    deliveredTo 1 (message stW 0 (InMsg.setMsg kDemo vDemo) true).2 =
      [OutMsg.kv kDemo vDemo] ∧
    deliveredTo 2 (message stW 0 (InMsg.setMsg kDemo vDemo) true).2 = [] := by
  refine ⟨?_, ?_⟩
  · exact ((c1_set_notifies_exactly_subscribers stW 0 1 kDemo vDemo true (by decide)
      (by decide)).1 (by decide)).1
  · exact ((c1_set_notifies_exactly_subscribers stW 0 2 kDemo vDemo true (by decide)
      (by decide)).2 (by decide)).1

/-- C2: after `set(k, v₁)` then `set(k, v₂)` and no later set for `k`, a
`get(k)` over either channel answers `{k, v₂}`: the second set fully
replaces the first. -/
theorem c2_last_write_wins (st : SystemState) (c₁ c₂ c₃ : Conn) (k : Key)
    (v₁ v₂ : Json) (d₁ d₂ : Bool) :
    (message (message (message st c₁ (InMsg.setMsg k v₁) d₁).1 c₂
        (InMsg.setMsg k v₂) d₂).1 c₃ (InMsg.getMsg k) true).2 =
      [Event.send c₃ (OutMsg.kv k v₂)] ∧
    fetchGet (message (message st c₁ (InMsg.setMsg k v₁) d₁).1 c₂
        (InMsg.setMsg k v₂) d₂).1 k = HttpResponse.ok (OutMsg.kv k v₂) := by
  have hstore : (message (message st c₁ (InMsg.setMsg k v₁) d₁).1 c₂
      (InMsg.setMsg k v₂) d₂).1.store = mapSet (mapSet st.store k v₁) k v₂ := by
    cases d₁ <;> cases d₂ <;> simp [message, persistKey]
  have hget : mapGet ((message (message st c₁ (InMsg.setMsg k v₁) d₁).1 c₂
      (InMsg.setMsg k v₂) d₂).1.store) k = some v₂ := by
    rw [hstore]; exact mapGet_mapSet_self _ k v₂
  generalize (message (message st c₁ (InMsg.setMsg k v₁) d₁).1 c₂
      (InMsg.setMsg k v₂) d₂).1 = A at hget ⊢
  constructor
  · simp [message, getOrNull, hget]
  · simp [fetchGet, getOrNull, hget]

/-- C3: a `subscribe(C, k)` registers the subscription, and sends exactly
one `{k, currentValue}` message to C when the store has `k`, and nothing
when it does not. -/
theorem c3_subscribe_immediate (st : SystemState) (c : Conn) (k : Key) (d : Bool) :
    message st c (InMsg.subscribeMsg k) d =
      ({ st with registry := regSubscribe st.registry c k },
        match mapGet st.store k with
        | some v => [Event.send c (OutMsg.kv k v)]
        | none => []) ∧
    (c, k) ∈ regSubscribe st.registry c k := by
  constructor
  · cases h : mapGet st.store k <;> simp [message, h]
  · by_cases hm : (c, k) ∈ st.registry <;> simp [regSubscribe, hm]

/-- C6: when the disk write of a `set(k, v)` fails, the failure is
captured (the `catch` in `persistKey` turns it into a logged outcome,
recorded here as the `diskWrite k false` trace event), the in-memory
entry is not rolled back (`get(k)` still answers `v`), the persisted
files are untouched, and the broadcast to the subscribers of `k` still
takes place. -/
theorem c6_persist_failure_best_effort (st : SystemState) (c : Conn) (k : Key)
    (v : Json) :
    message st c (InMsg.setMsg k v) false =
      ({ st with store := mapSet st.store k v },
        Event.storeWrite k v :: Event.diskWrite k false ::
          publishEvents k v (subscribers k st.registry)) ∧
    mapGet (message st c (InMsg.setMsg k v) false).1.store k = some v := by
  constructor
  · simp [message, persistKey]
  · simp [message, persistKey, mapGet_mapSet_self]

/-- C7: an accepted `set(k, v)` performs its effects in the causal order
store update, then disk write, then broadcast; on the HTTP path the
response is produced only after all three, so the handler has waited for
the persist outcome before acknowledging or broadcasting. -/
theorem c7_set_effect_order (st : SystemState) (c : Conn) (k : Key) (v : Json)
    (d : Bool) (hk : k ≠ []) :
    (message st c (InMsg.setMsg k v) d).2 =
      Event.storeWrite k v :: Event.diskWrite k d ::
        publishEvents k v (subscribers k st.registry) ∧
    (fetchSet st (some k) (some v) d).2.1 =
      Event.storeWrite k v :: Event.diskWrite k d ::
        (publishEvents k v (subscribers k st.registry) ++
          [Event.httpRespond (HttpResponse.ok (OutMsg.kv k v))]) := by
  cases d <;> constructor <;> simp [message, fetchSet, persistKey, hk]

/-- Witness for C7 at a concrete accepted set. -/
theorem c7_witness :
    (message stW 0 (InMsg.setMsg kDemo vDemo) true).2 =
      Event.storeWrite kDemo vDemo :: Event.diskWrite kDemo true ::
        publishEvents kDemo vDemo (subscribers kDemo stW.registry) ∧
    (fetchSet stW (some kDemo) (some vDemo) true).2.1 =
      Event.storeWrite kDemo vDemo :: Event.diskWrite kDemo true ::
        (publishEvents kDemo vDemo (subscribers kDemo stW.registry) ++
          [Event.httpRespond (HttpResponse.ok (OutMsg.kv kDemo vDemo))]) :=
  c7_set_effect_order stW 0 kDemo vDemo true (by decide)

/-- C8: once a connection's `dropConnection` cleanup has run, a
subsequent publish (here: the fan-out of any later accepted set, for any
key) delivers nothing to that connection. -/
theorem c8_dropped_connection_receives_nothing (st : SystemState) (c c₂ : Conn)
    (k : Key) (v : Json) (d : Bool) :
    deliveredTo c (message { st with registry := dropConnection st.registry c } c₂
      (InMsg.setMsg k v) d).2 = [] := by
  cases d <;> simp [message, persistKey] <;>
    exact deliveredTo_publishEvents_of_not_mem c k v _
      (subscribers_dropConnection st.registry c k)

/-- C10: a key whose stored value is `null` and a key that was never set
produce the identical `{key, value: null}` response on both `get`
channels, so a client cannot distinguish the two via `get`. -/
theorem c10_null_equals_absent (m₁ m₂ : SystemState) (c : Conn) (k : Key) (d : Bool)
    (h₁ : mapGet m₁.store k = some Json.null) (h₂ : mapGet m₂.store k = none) :
    (message m₁ c (InMsg.getMsg k) d).2 = [Event.send c (OutMsg.kv k Json.null)] ∧
    (message m₂ c (InMsg.getMsg k) d).2 = [Event.send c (OutMsg.kv k Json.null)] ∧
    fetchGet m₁ k = HttpResponse.ok (OutMsg.kv k Json.null) ∧
    fetchGet m₂ k = fetchGet m₁ k := by
  refine ⟨?_, ?_, ?_, ?_⟩ <;> simp [message, fetchGet, getOrNull, h₁, h₂]

/-- Witness for C10: a store holding `kDemo ↦ null` versus the empty
store. -/
theorem c10_witness :
    (message { store := [(kDemo, Json.null)], registry := [], fs := [] } 0
        (InMsg.getMsg kDemo) true).2 =
      [Event.send 0 (OutMsg.kv kDemo Json.null)] ∧
    (message st0 0 (InMsg.getMsg kDemo) true).2 =
      [Event.send 0 (OutMsg.kv kDemo Json.null)] ∧
    fetchGet { store := [(kDemo, Json.null)], registry := [], fs := [] } kDemo =
      HttpResponse.ok (OutMsg.kv kDemo Json.null) ∧
    fetchGet st0 kDemo =
      fetchGet { store := [(kDemo, Json.null)], registry := [], fs := [] } kDemo :=
  c10_null_equals_absent { store := [(kDemo, Json.null)], registry := [], fs := [] }
    st0 0 kDemo true (by simp [mapGet]) rfl

/-- C4 counterexample: the parsed message `{action: "bogus"}` reaches the
dispatch chain, matches none of its branches, and the handler returns
without sending anything — in particular no `{error: "Invalid message
format"}` goes back on the connection, contrary to the claim (the claim's
state-preservation half does hold). -/
theorem c4_counterexample :
    (message st0 0 InMsg.otherAction true).2 = [] ∧
    Event.send 0 (OutMsg.err invalidMsg) ∉ (message st0 0 InMsg.otherAction true).2 ∧
    (message st0 0 InMsg.otherAction true).1 = st0 := by
  refine ⟨rfl, ?_, rfl⟩
  simp [message]

/-- C4 amended: an unparseable payload (where `JSON.parse` throws and the
`catch` answers) yields `{error: "Invalid message format"}` on the same
connection; a parseable message with an unrecognized action is silently
ignored.  In both cases the store, the registry and the persisted files
are unchanged. -/
theorem c4_amended_malformed_handling (st : SystemState) (c : Conn) (d : Bool) :
    message st c InMsg.parseError d = (st, [Event.send c (OutMsg.err invalidMsg)]) ∧
    message st c InMsg.otherAction d = (st, []) :=
  ⟨rfl, rfl⟩

/-- C9 counterexample: the body `{key: "", value: 7}` has both fields
present, yet the source's truthiness guard `if (!key)` fires on the empty
string: the server answers the missing-key client error and the core is
never touched, contrary to the claim's success half. -/
theorem c9_counterexample :
    (fetchSet st0 (some []) (some vDemo2) true).2.2 =
      HttpResponse.clientError missingKeyMsg ∧
    (fetchSet st0 (some []) (some vDemo2) true).1 = st0 ∧
    HttpResponse.clientError missingKeyMsg ≠ HttpResponse.ok (OutMsg.kv [] vDemo2) :=
  ⟨rfl, rfl, fun h => HttpResponse.noConfusion h⟩

/-- C9 amended: a request-response set whose body's `key` field is absent
or the empty string (falsy) is answered with the distinct missing-key
client error before the core is touched: no store write, no disk write,
no broadcast; with a non-empty key and a value present it responds with
the stored pair and performs exactly the store-persist-broadcast effects
of the WebSocket `set` action, followed by the acknowledgement. -/
theorem c9_amended_missing_key (st : SystemState) (vf : Option Json) (d : Bool)
    (k : Key) (v : Json) (hk : k ≠ []) :
    fetchSet st none vf d =
      (st, [Event.httpRespond (HttpResponse.clientError missingKeyMsg)],
        HttpResponse.clientError missingKeyMsg) ∧
    fetchSet st (some []) vf d =
      (st, [Event.httpRespond (HttpResponse.clientError missingKeyMsg)],
        HttpResponse.clientError missingKeyMsg) ∧
    missingKeyMsg ≠ invalidMsg ∧
    fetchSet st (some k) (some v) d =
      ((message st 0 (InMsg.setMsg k v) d).1,
        (message st 0 (InMsg.setMsg k v) d).2 ++
          [Event.httpRespond (HttpResponse.ok (OutMsg.kv k v))],
        HttpResponse.ok (OutMsg.kv k v)) := by
  refine ⟨rfl, rfl, by decide, ?_⟩
  cases d <;> simp [fetchSet, message, persistKey, hk]

/-- Witness for C9 (amended) at concrete bodies. -/
theorem c9_witness :
    fetchSet stW none (some vDemo2) true =
      (stW, [Event.httpRespond (HttpResponse.clientError missingKeyMsg)],
        HttpResponse.clientError missingKeyMsg) ∧
    fetchSet stW (some []) (some vDemo2) true =
      (stW, [Event.httpRespond (HttpResponse.clientError missingKeyMsg)],
        HttpResponse.clientError missingKeyMsg) ∧
    missingKeyMsg ≠ invalidMsg ∧
    fetchSet stW (some kDemo) (some vDemo) true =
      ((message stW 0 (InMsg.setMsg kDemo vDemo) true).1,
        (message stW 0 (InMsg.setMsg kDemo vDemo) true).2 ++
          [Event.httpRespond (HttpResponse.ok (OutMsg.kv kDemo vDemo))],
        HttpResponse.ok (OutMsg.kv kDemo vDemo)) :=
  c9_amended_missing_key stW (some vDemo2) true kDemo vDemo (by decide)

/-- C5 counterexample: for the key `"a.jsonx"`, a successful set persists
the file `"a.jsonx.json"`, but the reload strips the FIRST occurrence of
`".json"` from the file name and recovers the key `"ax.json"`; after the
simulated restart a `get` of the original key finds nothing, so it does
not return the stored value. -/
theorem c5_counterexample :
    mapGet (initializeStore (message st0 0
        (InMsg.setMsg ['a', '.', 'j', 's', 'o', 'n', 'x'] vDemo) true).1.fs)
      ['a', '.', 'j', 's', 'o', 'n', 'x'] = none ∧
    mapGet (initializeStore (message st0 0
        (InMsg.setMsg ['a', '.', 'j', 's', 'o', 'n', 'x'] vDemo) true).1.fs)
      ['a', '.', 'j', 's', 'o', 'n', 'x'] ≠ some vDemo := by
  have h : mapGet (initializeStore (message st0 0
      (InMsg.setMsg ['a', '.', 'j', 's', 'o', 'n', 'x'] vDemo) true).1.fs)
      ['a', '.', 'j', 's', 'o', 'n', 'x'] = none := rfl
  exact ⟨h, by rw [h]; simp⟩

/-- C5 amended: for every key `k` in which `".json"` does not occur as a
substring and every value `v`, after a successful `set(k, v)` and a
simulated restart (reloading all persisted records into a fresh store),
`get(k)` returns `v`.  The persisted directory listing has pairwise
distinct file names, as any real directory does. -/
theorem c5_amended_persist_reload (st : SystemState) (c : Conn) (k : Key) (v : Json)
    (hk : occursIn jsonExt k = false) (hfs : (st.fs.map Prod.fst).Nodup) :
    mapGet (initializeStore (message st c (InMsg.setMsg k v) true).1.fs) k = some v := by
  rw [message_set_fs, initializeStore]
  apply mapGet_load_foldl
  · intro p hp hpk
    have hp' := List.mem_filter.mp hp
    have hocc : occursIn jsonExt (replaceFirst jsonExt [] p.1) = false := by
      rw [hpk]; exact hk
    have hfile : p.1 = k ++ jsonExt := by
      have hx := eq_strip_append_ext p.1 hp'.2 hocc
      rw [hpk] at hx; exact hx
    have hmem1 : (k ++ jsonExt, p.2) ∈ mapSet st.fs (k ++ jsonExt) v := by
      have hpe : (k ++ jsonExt, p.2) = p := by
        rw [← hfile]
      rw [hpe]; exact hp'.1
    exact value_unique_of_keysNodup (mapSet st.fs (k ++ jsonExt) v)
      (keysNodup_mapSet st.fs (k ++ jsonExt) v hfs) (k ++ jsonExt) p.2 v hmem1
      (mem_mapSet_self st.fs (k ++ jsonExt) v)
  · refine Or.inr ⟨(k ++ jsonExt, v), ?_, ?_⟩
    · rw [List.mem_filter]
      exact ⟨mem_mapSet_self st.fs (k ++ jsonExt) v, (hasSuffix_iff _ _).mpr ⟨k, rfl⟩⟩
    · exact replaceFirst_append_ext k hk

/-- Witness for C5 (amended): the key `"score"` (no `".json"` inside)
round-trips through persist and reload. -/
theorem c5_witness :
    mapGet (initializeStore (message st0 0 (InMsg.setMsg kDemo vDemo) true).1.fs) kDemo
      = some vDemo :=
  c5_amended_persist_reload st0 0 kDemo vDemo (by decide) (by decide)

end LiveGfx
